import Mathlib

/-!
# Verification of the mockupcore batch-export core

Shallow embedding of `src/Mockupcoreapp.py` (PSD thumbnail extractor,
unique-filename helper, batch render worker, cloud mockup library) and
proofs of the specification claims about it.

Files are modelled as byte lists with an explicit read position; Python
strings are modelled as `List Char`; the filesystem is modelled as the
list of existing paths; external collaborators (the JPEG decoder behind
`QImage.loadFromData`, the Photoshop `render` call, the network fetch
behind `urllib.request.urlretrieve`, the `hashlib.md5` digest) are
parameters of the embedded functions.
-/

namespace Mockup

/-! ## Byte-level file model (`open(path, 'rb')` handle) -/

/-- A byte string: Python `bytes` (each entry 0..255). -/
abbrev Bytes := List Nat

/-- An open binary file: its content plus the current read position,
modelling a Python buffered reader. -/
structure PFile where
  data : Bytes
  pos : Nat
  deriving Repr, DecidableEq

/-- `f.read(n)` for `n >= 0`: returns up to `n` bytes from the current
position (fewer at end of file, never an error) and advances the position
by the number of bytes actually returned. -/
def readN (f : PFile) (n : Nat) : Bytes × PFile :=
  let b := (f.data.drop f.pos).take n
  (b, ⟨f.data, f.pos + b.length⟩)

/-- `f.read(n)` for an `int` argument, as Python's `BufferedReader.read`:
`n >= 0` reads up to `n` bytes; `n = -1` reads to end of file; any other
negative size raises `ValueError`. -/
def readI (f : PFile) (n : Int) : Except String (Bytes × PFile) :=
  if 0 ≤ n then .ok (readN f n.toNat)
  else if n = -1 then
    let b := f.data.drop f.pos
    .ok (b, ⟨f.data, f.pos + b.length⟩)
  else .error "read length must be non-negative or -1"

/-- Big-endian value of a byte string (how `struct.unpack('>H'/'>I', _)`
interprets its input). -/
def beNat (b : Bytes) : Nat := b.foldl (fun a x => a * 256 + x) 0

/-- `struct.unpack(fmt, f.read(n))` for a big-endian unsigned format of
width `n`: reads `n` bytes and fails (`struct.error`) when fewer than `n`
bytes were available. -/
def unpack (f : PFile) (n : Nat) : Except String (Nat × PFile) :=
  let (b, f') := readN f n
  if b.length = n then .ok (beNat b, f') else .error "unpack requires a buffer of the right size"

/-- The PSD container signature `b'8BPS'`. -/
def sigPSD : Bytes := [56, 66, 80, 83]

/-- The resource-block marker `b'8BIM'`. -/
def marker8BIM : Bytes := [56, 66, 73, 77]

/-! ## `extract_psd_thumbnail` (Mockupcoreapp.py lines 47-116)

The JPEG decoder behind `QImage.loadFromData` is external; it is passed
in as `loadOk : Bytes → Bool`, and a successful extraction returns the
JPEG bytes that were handed to the decoder. -/

/-- Outcome of one iteration of the resource-scanning `while` loop. -/
inductive StepRes where
  /-- `return QPixmap.fromImage(image)`: decoded thumbnail data. -/
  | found : Bytes → StepRes
  /-- `break`: the 4 bytes read were not the `8BIM` marker. -/
  | halt : StepRes
  /-- An exception escaped the loop body (caught by the outer `try`). -/
  | fail : String → StepRes
  /-- Loop body finished normally; continue at the new file state. -/
  | next : PFile → StepRes
  deriving Repr, DecidableEq

/-- The trailing `# Padding to make even` of the loop body: consume one
byte when `data_size` is odd. -/
def padData (f : PFile) (dataSize : Nat) : PFile :=
  if dataSize % 2 ≠ 0 then (readN f 1).2 else f

/-- One iteration of the resource loop of `extract_psd_thumbnail`
(lines 77-111): read the block marker, resource id, Pascal name (padded
to even), data size; decode a 1036 JPEG thumbnail; note that a 1033
resource reads no data bytes, while any other id skips `data_size`
bytes; finally consume the data padding byte. -/
def step (loadOk : Bytes → Bool) (f : PFile) : StepRes :=
  let (resourceSignature, f) := readN f 4
  if resourceSignature ≠ marker8BIM then .halt
  else match unpack f 2 with
    | .error e => .fail e
    | .ok (resourceId, f) =>
      match unpack f 1 with
      | .error e => .fail e
      | .ok (nameLength, f) =>
        let f := if nameLength > 0 then (readN f nameLength).2 else f
        let f := if (nameLength + 1) % 2 ≠ 0 then (readN f 1).2 else f
        match unpack f 4 with
        | .error e => .fail e
        | .ok (dataSize, f) =>
          if resourceId = 1033 ∨ resourceId = 1036 then
            if resourceId = 1036 then
              let (_, f) := readN f 28
              match readI f ((dataSize : Int) - 28) with
              | .error e => .fail e
              | .ok (jpegData, f) =>
                if loadOk jpegData then .found jpegData
                else .next (padData f dataSize)
            else
              .next (padData f dataSize)
          else
            let (_, f) := readN f dataSize
            .next (padData f dataSize)

/-- The `while f.tell() < resources_end` loop, fuelled.  `.ok (some b)`
is a successful decode, `.ok none` is loop exit without a thumbnail
(normal end or `break`), `.error` is an exception reaching the outer
`try`.  The fuel passed by `extract_psd_thumbnail` always suffices
because every continuing iteration advances the position by at least
four bytes. -/
def loopRes (loadOk : Bytes → Bool) (resourcesEnd : Nat) :
    Nat → PFile → Except String (Option Bytes)
  | 0, _ => .error "out of fuel"
  | fuel + 1, f =>
    if f.pos < resourcesEnd then
      match step loadOk f with
      | .found b => .ok (some b)
      | .halt => .ok none
      | .fail e => .error e
      | .next f' => loopRes loadOk resourcesEnd fuel f'
    else .ok none

/-- The body of `extract_psd_thumbnail` inside its `try`: header parse
(signature, fixed fields, color-mode block, image-resources length) and
then the resource loop.  `.error` is an uncaught exception. -/
def extractBody (loadOk : Bytes → Bool) (bs : Bytes) : Except String (Option Bytes) :=
  let f0 : PFile := ⟨bs, 0⟩
  let (signature, f1) := readN f0 4
  if signature ≠ sigPSD then .ok none
  else match unpack f1 2 with
    | .error e => .error e
    | .ok (_version, f2) =>
      let f3 := (readN f2 6).2
      match unpack f3 2 with
      | .error e => .error e
      | .ok (_channels, f4) =>
        match unpack f4 4 with
        | .error e => .error e
        | .ok (_height, f5) =>
          match unpack f5 4 with
          | .error e => .error e
          | .ok (_width, f6) =>
            match unpack f6 2 with
            | .error e => .error e
            | .ok (_depth, f7) =>
              match unpack f7 2 with
              | .error e => .error e
              | .ok (_colorMode, f8) =>
                match unpack f8 4 with
                | .error e => .error e
                | .ok (colorModeLength, f9) =>
                  let f10 := (readN f9 colorModeLength).2
                  match unpack f10 4 with
                  | .error e => .error e
                  | .ok (resourcesLength, f11) =>
                    loopRes loadOk (f11.pos + resourcesLength) (bs.length + 1) f11

/-- `extract_psd_thumbnail`: the `try`/`except` wrapper converts every
exception into `None`. -/
def extract_psd_thumbnail (loadOk : Bytes → Bool) (bs : Bytes) : Option Bytes :=
  match extractBody loadOk bs with
  | .ok r => r
  | .error _ => none

/-! ## Container serialization (for stating claims about well-formed input) -/

/-- Big-endian 2-byte encoding of a 16-bit value. -/
def be2 (n : Nat) : Bytes := [n / 256 % 256, n % 256]

/-- Big-endian 4-byte encoding of a 32-bit value. -/
def be4 (n : Nat) : Bytes := [n / 2 ^ 24 % 256, n / 2 ^ 16 % 256, n / 2 ^ 8 % 256, n % 256]

/-- Length of a serialized resource-block header: marker (4), id (2),
name length byte (1), name, name padding to even (the length-prefixed
name is padded to an even total, so one pad byte iff the name length is
even), data size (4). -/
def resHeaderLen (name : Bytes) : Nat :=
  11 + name.length + (name.length + 1) % 2

/-- One well-formed image-resources block: marker, big-endian id,
Pascal-string name padded to even length, big-endian data size equal to
the payload length, the payload, and a padding byte when the payload
length is odd. -/
def resBlock (rid : Nat) (name payload : Bytes) : Bytes :=
  marker8BIM ++ be2 rid ++ [name.length] ++ name ++
  List.replicate ((name.length + 1) % 2) 0 ++
  be4 payload.length ++ payload ++
  List.replicate (payload.length % 2) 0

/-- A well-formed PSD container: signature, 26-byte header (version,
6 reserved bytes, channels, height, width, depth, color mode),
length-prefixed color-mode data, length-prefixed image-resources
section, and the rest of the document. -/
def mkPSD (version : Nat) (reserved : Bytes) (channels height width depth colorMode : Nat)
    (colorModeData resources tail : Bytes) : Bytes :=
  sigPSD ++ be2 version ++ reserved ++ be2 channels ++ be4 height ++ be4 width ++
  be2 depth ++ be2 colorMode ++
  be4 colorModeData.length ++ colorModeData ++
  be4 resources.length ++ resources ++ tail

/-! ## Python strings and `os.path` helpers

Python strings are modelled as `List Char`; paths use `/` as the
separator.  The filesystem is modelled as the list of existing paths,
so `os.path.exists` is list membership. -/

/-- A Python string. -/
abbrev PyStr := List Char

/-- Is this character not the path separator? -/
def notSlash (c : Char) : Bool := decide (c ≠ '/')

/-- Is this character the path separator? -/
def isSlashC (c : Char) : Bool := decide (c = '/')

/-- Is this character not a dot? -/
def notDot (c : Char) : Bool := decide (c ≠ '.')

/-- `os.path.basename`: the part after the last separator. -/
def basename (p : PyStr) : PyStr :=
  (p.reverse.takeWhile notSlash).reverse

/-- The head part of a path, up to and including the last separator
(empty when there is none). -/
def rawHead (p : PyStr) : PyStr :=
  (p.reverse.dropWhile notSlash).reverse

/-- `os.path.dirname`: the head part with trailing separators stripped,
unless it consists only of separators. -/
def dirname (p : PyStr) : PyStr :=
  let h := rawHead p
  if h.all isSlashC then h
  else (h.reverse.dropWhile isSlashC).reverse

/-- `os.path.join` with two arguments: an absolute second argument wins;
otherwise a separator is inserted unless the first part is empty or
already ends with one. -/
def joinPath (d b : PyStr) : PyStr :=
  if b.take 1 = ['/'] then b
  else if d = [] then b
  else if d.reverse.take 1 = ['/'] then d ++ b
  else d ++ '/' :: b

/-- `os.path.splitext` on a separator-free filename: split at the last
dot, unless every character of the name before that dot is itself a dot
(then there is no extension). -/
def splitext (b : PyStr) : PyStr × PyStr :=
  let r := b.reverse
  let e := r.takeWhile notDot
  match r.dropWhile notDot with
  | [] => (b, [])
  | _ :: nameRev =>
    if nameRev.any notDot then (nameRev.reverse, '.' :: e.reverse)
    else (b, [])

/-- Decimal digit character. -/
def digitChar (d : Nat) : Char := Char.ofNat (48 + d)

/-- Decimal digits, fuelled (structural recursion so that concrete
values compute); the fuel is an upper bound on the value. -/
def reprDigitsCore : Nat → Nat → List Char
  | _, 0 => []
  | 0, _ + 1 => []
  | fuel + 1, n + 1 => reprDigitsCore fuel ((n + 1) / 10) ++ [digitChar ((n + 1) % 10)]

/-- Decimal digits of a positive number (empty for 0). -/
def reprDigits (n : Nat) : List Char := reprDigitsCore n n

/-- `str(n)` for a natural number (Python's decimal rendering, as used
by the f-string `f"{name}_{counter}{ext}"`). -/
def natRepr (n : Nat) : PyStr := if n = 0 then ['0'] else reprDigits n

/-- Decimal value of a digit string (left inverse of `natRepr`, used to
prove injectivity). -/
def parseBack (l : PyStr) : Nat := l.foldl (fun a c => a * 10 + (c.toNat - 48)) 0

/-! ## `get_unique_filepath` (Mockupcoreapp.py lines 26-44) -/

/-- The candidate `os.path.join(directory, f"{name}_{counter}{ext}")`
tested by one iteration of the loop. -/
def mkCandidate (directory name ext : PyStr) (counter : Nat) : PyStr :=
  joinPath directory (name ++ '_' :: (natRepr counter ++ ext))

/-- The `while True` loop of `get_unique_filepath`, fuelled.  The fuel
passed by `get_unique_filepath` provably suffices (`uniqLoop_isSome`):
candidates for distinct counters are distinct paths, so among
`fs.length + 1` of them one is not in `fs`. -/
def uniqLoop (fs : List PyStr) (directory name ext : PyStr) : Nat → Nat → Option PyStr
  | 0, _ => none
  | fuel + 1, counter =>
    let newFilepath := mkCandidate directory name ext counter
    if newFilepath ∉ fs then some newFilepath
    else uniqLoop fs directory name ext fuel (counter + 1)

/-- `get_unique_filepath`: return the path unchanged when it does not
exist, else try `{name}_{counter}{ext}` in the same directory for
counters 1, 2, ... until a non-existing path is found.  The `none`
fallback is unreachable for the fuel used. -/
def get_unique_filepath (fs : List PyStr) (filepath : PyStr) : PyStr :=
  if filepath ∉ fs then filepath
  else
    let directory := dirname filepath
    let filename := basename filepath
    let stemExt := splitext filename
    match uniqLoop fs directory stemExt.1 stemExt.2 (fs.length + 1) 1 with
    | some newFilepath => newFilepath
    | none => filepath

/-! ## IEEE-754 double-precision model

`Worker.run` computes its progress value as `int((i / total) * 100)`,
where `/` and `*` are CPython float operations: correctly rounded
IEEE-754 double-precision arithmetic with round-half-to-even.  A
(nonnegative, finite) double is represented exactly as a mantissa and a
binary exponent, value `m * 2 ^ ex`; division and multiplication are
implemented by exact integer arithmetic followed by a single correct
rounding to 53 significant bits.  The magnitudes involved here are far
from overflow and subnormal range, so neither needs modelling. -/

/-- Fuelled floor base-2 logarithm (0 for 0 and 1). -/
def log2c : Nat → Nat → Nat
  | 0, _ => 0
  | fuel + 1, n => if n ≤ 1 then 0 else log2c fuel (n / 2) + 1

/-- Floor base-2 logarithm. -/
def natLog2 (n : Nat) : Nat := log2c n n

/-- `2 ^ e ≤ a / b` as an exact integer comparison. -/
def pow2Le (e : Int) (a b : Nat) : Bool :=
  if 0 ≤ e then b * 2 ^ e.toNat ≤ a else b ≤ a * 2 ^ (-e).toNat

/-- The binary exponent of `a / b` (for positive `a`, `b`): the unique
`e` with `2 ^ e ≤ a / b < 2 ^ (e + 1)`. -/
def dyadicExp (a b : Nat) : Int :=
  let k : Int := (natLog2 a : Int) - (natLog2 b : Int)
  if pow2Le (k + 1) a b then k + 1
  else if pow2Le k a b then k
  else k - 1

/-- Round-to-nearest-even integer division. -/
def rneDiv (n d : Nat) : Nat :=
  let q := n / d
  let r := n % d
  if d < 2 * r then q + 1
  else if 2 * r < d then q
  else if q % 2 = 0 then q else q + 1

/-- The IEEE-754 double `fl(a / b)` for naturals `a`, `b > 0`, as
(mantissa, exponent) with value `m * 2 ^ ex` and `2 ^ 52 ≤ m < 2 ^ 53`
(or `m = 0`). -/
def fdivD (a b : Nat) : Nat × Int :=
  if a = 0 then (0, 0)
  else
    let e := dyadicExp a b
    let s := 52 - e
    let m := if 0 ≤ s then rneDiv (a * 2 ^ s.toNat) b else rneDiv a (b * 2 ^ (-s).toNat)
    if m = 2 ^ 53 then (2 ^ 52, e - 51) else (m, e - 52)

/-- The IEEE-754 double `fl(x * k)` for a represented double `x` and a
natural constant `k`. -/
def fmulD (m : Nat) (ex : Int) (k : Nat) : Nat × Int :=
  if m * k = 0 then (0, 0)
  else
    let n := m * k
    let bits := natLog2 n
    if bits ≤ 52 then (n, ex)
    else
      let s := bits - 52
      let m2 := rneDiv n (2 ^ s)
      if m2 = 2 ^ 53 then (2 ^ 52, ex + s + 1) else (m2, ex + s)

/-- `int(x)` of a nonnegative represented double: truncation toward
zero. -/
def floorD (m : Nat) (ex : Int) : Nat :=
  if 0 ≤ ex then m * 2 ^ ex.toNat else m / 2 ^ (-ex).toNat

/-- `int((i / total) * 100)` exactly as CPython computes it in
double-precision arithmetic. -/
def pyProgress (i total : Nat) : Nat :=
  let x := fdivD i total
  let y := fmulD x.1 x.2 100
  floorD y.1 y.2

/-! ## `Worker.run` (Mockupcoreapp.py lines 717-765)

The Photoshop availability probe (`win32com.client.Dispatch`) is the
Boolean `psAvailable`; the external `render` call is a parameter
returning `Except` (an `.error` models a raised exception); a
successful render creates the output file.  The log stream is not
modelled; the `progress`, `error` and `finished` signals are recorded. -/

/-- A batch job: template documents, one artwork, one output folder. -/
structure Job where
  psds : List PyStr
  art : PyStr
  out_dir : PyStr

deriving instance DecidableEq for Except

/-- Per-template record: the template, the resolved output path, and
the outcome of the render invocation. -/
structure ItemRecord where
  psd : PyStr
  out : PyStr
  outcome : Except String Unit
  deriving Repr, DecidableEq

/-- Observable output of one `Worker.run`: emitted `error` signals,
one record per processed item, emitted `progress` values, and the
number of `finished` signals. -/
structure RunOutput where
  errorEvents : List PyStr
  items : List ItemRecord
  progressEvents : List Nat
  finishedEvents : Nat
  deriving Repr, DecidableEq

/-- The per-item loop of `Worker.run` (lines 751-764): resolve
`{outputDir}/{templateBaseName}.jpg` through `get_unique_filepath`,
invoke the renderer (recording but swallowing failures), emit the
progress value; a successful render creates the output file. -/
def runItems (render : PyStr → PyStr → PyStr → Except String Unit) (art outDir : PyStr) :
    List PyStr → Nat → Nat → List PyStr → List ItemRecord × List Nat
  | [], _, _, _ => ([], [])
  | psd :: rest, i, total, fs =>
    let name := (splitext (basename psd)).1 ++ ".jpg".toList
    let out := get_unique_filepath fs (joinPath outDir name)
    let res := render psd art out
    let fs' := match res with
      | .ok _ => out :: fs
      | .error _ => fs
    let next := runItems render art outDir rest (i + 1) total fs'
    (⟨psd, out, res⟩ :: next.1, pyProgress i total :: next.2)

/-- `Worker.run`: preflight Photoshop probe, then the item loop and a
single `finished` signal; on probe failure, a single `error` signal and
no per-item work at all. -/
def run (psAvailable : Bool) (render : PyStr → PyStr → PyStr → Except String Unit)
    (fs : List PyStr) (job : Job) : RunOutput :=
  if psAvailable = false then
    { errorEvents := ["Photoshop not found".toList], items := [], progressEvents := [],
      finishedEvents := 0 }
  else
    let r := runItems render job.art job.out_dir job.psds 1 job.psds.length fs
    { errorEvents := [], items := r.1, progressEvents := r.2, finishedEvents := 1 }

/-! ## Python string scanning (`in`, `split`, `startswith`, `lower`) -/

/-- `s.startswith(pat)`. -/
def startsWithL : PyStr → PyStr → Bool
  | [], _ => true
  | _ :: _, [] => false
  | p :: ps, c :: cs => p == c && startsWithL ps cs

/-- `pat in s` (substring containment). -/
def containsSub (pat s : PyStr) : Bool :=
  (List.range (s.length + 1)).any (fun i => startsWithL pat (s.drop i))

/-- Index of the first occurrence of `pat` in `s`. -/
def findSub (pat s : PyStr) : Option Nat :=
  (List.range (s.length + 1)).find? (fun i => startsWithL pat (s.drop i))

/-- `s.split(sep)` for a nonempty separator: leftmost non-overlapping
occurrences, fuelled (the fuel passed by `pySplit` always suffices). -/
def pySplitCore (sep : PyStr) : Nat → PyStr → List PyStr
  | 0, s => [s]
  | fuel + 1, s =>
    match findSub sep s with
    | none => [s]
    | some i => s.take i :: pySplitCore sep fuel (s.drop (i + sep.length))

/-- `s.split(sep)`. -/
def pySplit (sep s : PyStr) : List PyStr := pySplitCore sep (s.length + 1) s

/-- ASCII lowering, as `str.lower` behaves on the ASCII names used
here. -/
def toLowerC (c : Char) : Char :=
  if 'A' ≤ c ∧ c ≤ 'Z' then Char.ofNat (c.toNat + 32) else c

/-- `s.endswith(sfx)`. -/
def endsWithL (sfx s : PyStr) : Bool := startsWithL sfx.reverse s.reverse

/-- Python `str.strip()`: drop leading and trailing whitespace. -/
def stripL (s : PyStr) : PyStr :=
  ((s.dropWhile Char.isWhitespace).reverse.dropWhile Char.isWhitespace).reverse

/-! ## `MockupLibrary` cloud cache (Mockupcoreapp.py lines 767-1065)

The `hashlib.md5` hex digest is the parameter `md5`; the network fetch
behind `urllib.request.urlretrieve` is the parameter `fetch` (applied
to the rewritten download URL; `true` means the file was written to the
destination).  The filesystem is the list of existing paths. -/

/-- `_get_google_drive_direct_link` (lines 909-922): rewrite Google
Drive sharing links to direct-download links, leave others alone. -/
def get_google_drive_direct_link (url : PyStr) : PyStr :=
  if containsSub "drive.google.com".toList url then
    if containsSub "/file/d/".toList url then
      let fileId := (pySplit ['/'] ((pySplit "/file/d/".toList url).getD 1 [])).headD []
      "https://drive.google.com/uc?export=download&id=".toList ++ fileId
    else if containsSub "id=".toList url then
      let fileId := (pySplit ['&'] ((pySplit "id=".toList url).getD 1 [])).headD []
      "https://drive.google.com/uc?export=download&id=".toList ++ fileId
    else url
  else url

/-- `_get_cached_filename` (lines 924-934): md5 digest of the URL plus
the URL's apparent file name when it ends in `.psd`, else a fixed
`.psd` extension. -/
def get_cached_filename (md5 : PyStr → PyStr) (url : PyStr) : PyStr :=
  let urlHash := md5 url
  let lastSeg := (pySplit ['/'] url).getLastD url
  let originalName := (pySplit ['?'] lastSeg).headD lastSeg
  if endsWithL ".psd".toList (originalName.map toLowerC) then
    urlHash ++ '_' :: originalName
  else
    urlHash ++ ".psd".toList

/-- `_download_file` (lines 936-954): rewrite the URL, attempt the
fetch; returns success and the URL actually fetched. -/
def download_file (fetch : PyStr → Bool) (url : PyStr) : Bool × PyStr :=
  let downloadUrl := get_google_drive_direct_link url
  (fetch downloadUrl, downloadUrl)

/-- One iteration of the `_get_cloud_mockups` loop (lines 979-1007) for
a single URL — the cache `ensure` operation: a file present at the
cache path is used without any fetch; otherwise one fetch is attempted
and, on success, the file exists at the cache path afterwards.
Returns (resolved local path if any, filesystem afterwards, list of
fetch attempts made). -/
def ensureUrl (md5 : PyStr → PyStr) (fetch : PyStr → Bool) (cacheDir : PyStr)
    (fs : List PyStr) (url : PyStr) : Option PyStr × List PyStr × List PyStr :=
  let cachePath := joinPath cacheDir (get_cached_filename md5 url)
  if cachePath ∈ fs then (some cachePath, fs, [])
  else
    let dl := download_file fetch url
    if dl.1 then (some cachePath, cachePath :: fs, [dl.2])
    else (none, fs, [dl.2])

/-- `_get_cloud_mockups` (lines 956-1012): resolve every configured URL
through the cache, skipping failed downloads.  Returns (local paths,
filesystem afterwards, fetch attempts). -/
def get_cloud_mockups (md5 : PyStr → PyStr) (fetch : PyStr → Bool) (cacheDir : PyStr) :
    List PyStr → List PyStr → List PyStr × List PyStr × List PyStr
  | [], fs => ([], fs, [])
  | url :: rest, fs =>
    let r := ensureUrl md5 fetch cacheDir fs url
    let next := get_cloud_mockups md5 fetch cacheDir rest r.2.1
    ((match r.1 with | some p => [p] | none => []) ++ next.1, next.2.1, r.2.2 ++ next.2.2)

/-- `clear_cache` (lines 1049-1060): when the cache directory exists,
remove it and its contents and recreate it empty (net effect: the
directory remains, its contents are gone) and report success; when it
does not exist, do nothing and report failure. -/
def clear_cache (cacheDir : PyStr) (fs : List PyStr) : List PyStr × Bool :=
  if cacheDir ∈ fs then
    (fs.filter (fun p => !startsWithL (cacheDir ++ ['/']) p), true)
  else (fs, false)

/-- Is this configuration line a Google Drive folder link
(line 817: `A or (B and C)`)? -/
def isFolderLine (line : PyStr) : Bool :=
  containsSub "drive.google.com/drive/folders".toList line ||
  (containsSub "drive.google.com/drive/u/".toList line &&
    containsSub "folders".toList line)

/-- `_get_files_from_gdrive_folder` (lines 856-907): no folder
enumeration is performed; the function prints guidance and returns
three comment-marker strings (which the caller appends to the URL
list). -/
def get_files_from_gdrive_folder (folderUrl : PyStr) : List PyStr :=
  if containsSub "/folders/".toList folderUrl then
    let afterFolders := (pySplit "/folders/".toList folderUrl).getLastD folderUrl
    let beforeQuery := (pySplit ['?'] afterFolders).headD afterFolders
    let folderId := (pySplit ['/'] beforeQuery).headD beforeQuery
    if folderId = [] then []
    else
      ["# FOLDER: ".toList ++ folderUrl,
        "# Please replace this with individual file URLs".toList,
        "# Right-click each file > Share > Copy link".toList]
  else []

/-- `_load_cloud_sources` (lines 798-830): one URL per non-empty,
non-comment line; folder lines are expanded to the guidance entries of
`_get_files_from_gdrive_folder`, other lines are taken verbatim. -/
def load_cloud_sources : List PyStr → List PyStr
  | [] => []
  | line :: rest =>
    let l := stripL line
    if l = [] then load_cloud_sources rest
    else if startsWithL ['#'] l then load_cloud_sources rest
    else if isFolderLine l then get_files_from_gdrive_folder l ++ load_cloud_sources rest
    else l :: load_cloud_sources rest

end Mockup

namespace Mockup

/-! ## Basic facts about the byte reader -/

theorem readN_append (bs : Bytes) (p n : Nat) (xs rest : Bytes)
    (h : bs.drop p = xs ++ rest) (hl : xs.length = n) :
    readN ⟨bs, p⟩ n = (xs, ⟨bs, p + n⟩) ∧ bs.drop (p + n) = rest := by
  subst hl
  refine ⟨?_, ?_⟩
  · simp only [readN, h, List.take_left]
  · have h2 : bs.drop (p + xs.length) = (bs.drop p).drop xs.length := by
      rw [List.drop_drop, Nat.add_comm]
    rw [h2, h, List.drop_left]

theorem unpack_append (bs : Bytes) (p n : Nat) (xs rest : Bytes)
    (h : bs.drop p = xs ++ rest) (hl : xs.length = n) :
    unpack ⟨bs, p⟩ n = .ok (beNat xs, ⟨bs, p + n⟩) := by
  have hr := (readN_append bs p n xs rest h hl).1
  simp [unpack, hr, hl]

theorem beNat_one (x : Nat) : beNat [x] = x := by
  simp [beNat]

theorem beNat_be2 (n : Nat) (h : n < 65536) : beNat (be2 n) = n := by
  simp only [beNat, be2, List.foldl]
  omega

theorem beNat_be4 (n : Nat) (h : n < 4294967296) : beNat (be4 n) = n := by
  simp only [beNat, be4, List.foldl]
  omega

theorem resBlock_length (rid : Nat) (name payload : Bytes) :
    (resBlock rid name payload).length =
      resHeaderLen name + payload.length + payload.length % 2 := by
  simp only [resBlock, resHeaderLen, marker8BIM, be2, be4, List.length_append, List.length_cons,
    List.length_nil, List.length_replicate]
  omega

/-- Reading the optional single padding byte: when the pad count `k`
(0 or 1) worth of zero bytes sits at the current position, the
conditional one-byte read lands exactly past it. -/
theorem condRead1 (bs : Bytes) (pos k : Nat) (tail : Bytes)
    (h : bs.drop pos = List.replicate k 0 ++ tail) (hk : k ≤ 1) :
    (if k ≠ 0 then (readN ⟨bs, pos⟩ 1).2 else ⟨bs, pos⟩) = ⟨bs, pos + k⟩ ∧
      bs.drop (pos + k) = tail := by
  interval_cases k
  · simpa using h
  · obtain ⟨r, hd⟩ := readN_append bs pos 1 [0] tail (by simpa using h) rfl
    exact ⟨by simp [r], hd⟩

/-- Behaviour of one resource-loop iteration on a well-formed serialized
resource block sitting at the current position.  For a resource id other
than the two thumbnail ids, exactly the whole block (data and padding
included) is consumed.  For the raw-thumbnail id 1033 the data bytes are
never read: only the 11-to-12-byte header plus (when the data size is
odd) one byte of padding — taken out of the payload itself — are
consumed. -/
theorem step_resBlock (loadOk : Bytes → Bool) (bs : Bytes) (p rid : Nat)
    (name payload rest : Bytes)
    (h : bs.drop p = resBlock rid name payload ++ rest)
    (hrid : rid < 65536) (hpay : payload.length < 2 ^ 32) :
    (¬rid = 1033 → ¬rid = 1036 →
      step loadOk ⟨bs, p⟩ = .next ⟨bs, p + (resBlock rid name payload).length⟩ ∧
        bs.drop (p + (resBlock rid name payload).length) = rest)
    ∧ (rid = 1033 →
      step loadOk ⟨bs, p⟩ = .next ⟨bs, p + resHeaderLen name + payload.length % 2⟩) := by
  simp only [resBlock, List.append_assoc] at h
  obtain ⟨r1, h1⟩ := readN_append bs p 4 marker8BIM _ h rfl
  obtain ⟨r2, h2⟩ := readN_append bs (p + 4) 2 (be2 rid) _ h1 rfl
  have u2 : unpack ⟨bs, p + 4⟩ 2 = .ok (rid, ⟨bs, p + 4 + 2⟩) := by
    have hu := unpack_append bs (p + 4) 2 (be2 rid) _ h1 rfl
    rwa [beNat_be2 rid hrid] at hu
  obtain ⟨r3, h3⟩ := readN_append bs (p + 4 + 2) 1 [name.length] _ h2 rfl
  have u3 : unpack ⟨bs, p + 4 + 2⟩ 1 = .ok (name.length, ⟨bs, p + 4 + 2 + 1⟩) := by
    have hu := unpack_append bs (p + 4 + 2) 1 [name.length] _ h2 rfl
    rwa [beNat_one] at hu
  have hn : (if name.length > 0 then (readN ⟨bs, p + 4 + 2 + 1⟩ name.length).2
        else ⟨bs, p + 4 + 2 + 1⟩) = (⟨bs, p + 4 + 2 + 1 + name.length⟩ : PFile) ∧
      bs.drop (p + 4 + 2 + 1 + name.length) =
        List.replicate ((name.length + 1) % 2) 0 ++
          (be4 payload.length ++ (payload ++ (List.replicate (payload.length % 2) 0 ++ rest))) := by
    rcases Nat.eq_zero_or_pos name.length with h0 | h0
    · obtain rfl : name = [] := List.length_eq_zero.mp h0
      refine ⟨by simp, by simpa using h3⟩
    · obtain ⟨r4, h4⟩ := readN_append bs (p + 4 + 2 + 1) name.length name _ h3 rfl
      exact ⟨by rw [if_pos h0, r4], h4⟩
  obtain ⟨hn1, hn2⟩ := hn
  obtain ⟨hp1, hp2⟩ := condRead1 bs (p + 4 + 2 + 1 + name.length) ((name.length + 1) % 2) _
    hn2 (by omega)
  have u5 : unpack ⟨bs, p + 4 + 2 + 1 + name.length + (name.length + 1) % 2⟩ 4 =
      .ok (payload.length,
        ⟨bs, p + 4 + 2 + 1 + name.length + (name.length + 1) % 2 + 4⟩) := by
    have hu := unpack_append bs (p + 4 + 2 + 1 + name.length + (name.length + 1) % 2) 4
      (be4 payload.length) _ hp2 rfl
    rwa [beNat_be4 payload.length hpay] at hu
  obtain ⟨_, h5⟩ := readN_append bs (p + 4 + 2 + 1 + name.length + (name.length + 1) % 2) 4
    (be4 payload.length) _ hp2 rfl
  refine ⟨fun hA hB => ?_, fun h1033 => ?_⟩
  · obtain ⟨r6, h6⟩ := readN_append bs
      (p + 4 + 2 + 1 + name.length + (name.length + 1) % 2 + 4) payload.length payload _ h5 rfl
    obtain ⟨hq1, hq2⟩ := condRead1 bs
      (p + 4 + 2 + 1 + name.length + (name.length + 1) % 2 + 4 + payload.length)
      (payload.length % 2) rest h6 (by omega)
    have hlen : p + 4 + 2 + 1 + name.length + (name.length + 1) % 2 + 4 + payload.length +
        payload.length % 2 = p + (resBlock rid name payload).length := by
      rw [resBlock_length]
      simp only [resHeaderLen]
      omega
    have hstep : step loadOk ⟨bs, p⟩ = .next ⟨bs,
        p + 4 + 2 + 1 + name.length + (name.length + 1) % 2 + 4 + payload.length +
          payload.length % 2⟩ := by
      simp only [step, r1, u2, u3, hn1, hp1, u5, r6, padData, hq1]
      rw [if_neg (by simp [marker8BIM]), if_neg (by tauto)]
    rw [hlen] at hstep hq2
    exact ⟨hstep, hq2⟩
  · subst h1033
    by_cases ho : payload.length % 2 ≠ 0
    · obtain ⟨c, tl, rfl⟩ : ∃ c tl, payload = c :: tl := by
        cases payload with
        | nil => simp at ho
        | cons c tl => exact ⟨c, tl, rfl⟩
      obtain ⟨r7, _⟩ := readN_append bs
        (p + 4 + 2 + 1 + name.length + (name.length + 1) % 2 + 4) 1 [c] _
        (by simpa using h5) rfl
      have hstep : step loadOk ⟨bs, p⟩ = .next ⟨bs,
          p + 4 + 2 + 1 + name.length + (name.length + 1) % 2 + 4 + 1⟩ := by
        simp only [step, r1, u2, u3, hn1, hp1, u5, padData]
        rw [if_neg (by simp [marker8BIM]), if_pos (Or.inl trivial), if_neg (by decide),
          if_pos ho, r7]
      rw [hstep]
      have : p + 4 + 2 + 1 + name.length + (name.length + 1) % 2 + 4 + 1 =
          p + resHeaderLen name + (c :: tl).length % 2 := by
        simp only [resHeaderLen]
        omega
      rw [this]
    · have hstep : step loadOk ⟨bs, p⟩ = .next ⟨bs,
          p + 4 + 2 + 1 + name.length + (name.length + 1) % 2 + 4⟩ := by
        simp only [step, r1, u2, u3, hn1, hp1, u5, padData]
        rw [if_neg (by simp [marker8BIM]), if_pos (Or.inl trivial), if_neg (by decide),
          if_neg ho]
      rw [hstep]
      have : p + 4 + 2 + 1 + name.length + (name.length + 1) % 2 + 4 =
          p + resHeaderLen name + payload.length % 2 := by
        simp only [resHeaderLen]
        omega
      rw [this]

/-- Parsing the fixed header of a well-formed container: the signature
matches, the 26-byte header and the color-mode block are consumed, and
the resource loop starts at offset `34 + colorModeData.length` with the
resources-section end bound computed from the serialized length. -/
theorem extractBody_mkPSD (loadOk : Bytes → Bool) (version : Nat) (reserved : Bytes)
    (channels height width depth colorMode : Nat) (cm res tail : Bytes)
    (hres6 : reserved.length = 6) (hcm : cm.length < 2 ^ 32) (hresl : res.length < 2 ^ 32) :
    extractBody loadOk (mkPSD version reserved channels height width depth colorMode cm res tail) =
      loopRes loadOk (34 + cm.length + res.length)
        ((mkPSD version reserved channels height width depth colorMode cm res tail).length + 1)
        ⟨mkPSD version reserved channels height width depth colorMode cm res tail,
          34 + cm.length⟩ ∧
    (mkPSD version reserved channels height width depth colorMode cm res tail).drop
        (34 + cm.length) = res ++ tail := by
  set bs := mkPSD version reserved channels height width depth colorMode cm res tail with hbs
  have d0 : bs.drop 0 = sigPSD ++ (be2 version ++ (reserved ++ (be2 channels ++ (be4 height ++
      (be4 width ++ (be2 depth ++ (be2 colorMode ++ (be4 cm.length ++ (cm ++
      (be4 res.length ++ (res ++ tail))))))))))) := by
    simp [hbs, mkPSD, List.append_assoc]
  obtain ⟨r1, h1⟩ := readN_append bs 0 4 sigPSD _ d0 rfl
  have r1' : readN ⟨bs, 0⟩ 4 = (sigPSD, ⟨bs, 4⟩) := by simpa using r1
  obtain ⟨r2, h2⟩ := readN_append bs 4 2 (be2 version) _ (by simpa using h1) rfl
  have u2 : unpack ⟨bs, 4⟩ 2 = .ok (beNat (be2 version), ⟨bs, 6⟩) := by
    simpa using unpack_append bs 4 2 (be2 version) _ (by simpa using h1) rfl
  obtain ⟨r3, h3⟩ := readN_append bs 6 6 reserved _ (by simpa using h2) hres6
  have r3' : readN ⟨bs, 6⟩ 6 = (reserved, ⟨bs, 12⟩) := by simpa using r3
  have u4 : unpack ⟨bs, 12⟩ 2 = .ok (beNat (be2 channels), ⟨bs, 14⟩) := by
    simpa using unpack_append bs 12 2 (be2 channels) _ (by simpa using h3) rfl
  obtain ⟨r4, h4⟩ := readN_append bs 12 2 (be2 channels) _ (by simpa using h3) rfl
  have u5 : unpack ⟨bs, 14⟩ 4 = .ok (beNat (be4 height), ⟨bs, 18⟩) := by
    simpa using unpack_append bs 14 4 (be4 height) _ (by simpa using h4) rfl
  obtain ⟨r5, h5⟩ := readN_append bs 14 4 (be4 height) _ (by simpa using h4) rfl
  have u6 : unpack ⟨bs, 18⟩ 4 = .ok (beNat (be4 width), ⟨bs, 22⟩) := by
    simpa using unpack_append bs 18 4 (be4 width) _ (by simpa using h5) rfl
  obtain ⟨r6, h6⟩ := readN_append bs 18 4 (be4 width) _ (by simpa using h5) rfl
  have u7 : unpack ⟨bs, 22⟩ 2 = .ok (beNat (be2 depth), ⟨bs, 24⟩) := by
    simpa using unpack_append bs 22 2 (be2 depth) _ (by simpa using h6) rfl
  obtain ⟨r7, h7⟩ := readN_append bs 22 2 (be2 depth) _ (by simpa using h6) rfl
  have u8 : unpack ⟨bs, 24⟩ 2 = .ok (beNat (be2 colorMode), ⟨bs, 26⟩) := by
    simpa using unpack_append bs 24 2 (be2 colorMode) _ (by simpa using h7) rfl
  obtain ⟨r8, h8⟩ := readN_append bs 24 2 (be2 colorMode) _ (by simpa using h7) rfl
  have u9 : unpack ⟨bs, 26⟩ 4 = .ok (cm.length, ⟨bs, 30⟩) := by
    have hu := unpack_append bs 26 4 (be4 cm.length) _ (by simpa using h8) rfl
    rw [beNat_be4 cm.length hcm] at hu
    simpa using hu
  obtain ⟨r9, h9⟩ := readN_append bs 26 4 (be4 cm.length) _ (by simpa using h8) rfl
  obtain ⟨r10, h10⟩ := readN_append bs 30 cm.length cm _ (by simpa using h9) rfl
  obtain ⟨r11, h11⟩ := readN_append bs (30 + cm.length) 4 (be4 res.length) _ h10 rfl
  have u11 : unpack ⟨bs, 30 + cm.length⟩ 4 = .ok (res.length, ⟨bs, 34 + cm.length⟩) := by
    have hu := unpack_append bs (30 + cm.length) 4 (be4 res.length) _ h10 rfl
    rw [beNat_be4 res.length hresl] at hu
    rwa [show 30 + cm.length + 4 = 34 + cm.length from by omega] at hu
  have h11' : bs.drop (34 + cm.length) = res ++ tail := by
    rwa [show 30 + cm.length + 4 = 34 + cm.length from by omega] at h11
  refine ⟨?_, h11'⟩
  simp only [extractBody, r1', u2, r3', u4, u5, u6, u7, u8, u9, r10, u11]
  rw [if_neg (by simp [sigPSD])]

/-- C1, counterexample: it is false that every resource whose id is not
the JPEG-preview identifier 1036 has exactly its `dataSize` bytes
consumed so that the parser stays aligned on the following block.  The
raw-preview id 1033 is a counterexample: at the concrete block
`resBlock 1033 [] [0, 0]` (14 bytes long) the loop iteration consumes
only the 12 header bytes, not the 2 data bytes. -/
theorem extract_skip_nonjpeg_counterexample :
    ¬ (∀ (loadOk : Bytes → Bool) (bs : Bytes) (p rid : Nat) (name payload rest : Bytes),
        bs.drop p = resBlock rid name payload ++ rest → rid < 65536 → ¬rid = 1036 →
        name.length ≤ 255 → payload.length < 2 ^ 32 →
        step loadOk ⟨bs, p⟩ = .next ⟨bs, p + (resBlock rid name payload).length⟩) := by
  intro hclaim
  have h := hclaim (fun _ => false) (resBlock 1033 [] [0, 0]) 0 1033 [] [0, 0] []
    (by decide) (by decide) (by decide) (by decide) (by decide)
  exact absurd h (by decide)

/-- C1, amended: (i) a resource whose id is neither thumbnail identifier
(not 1033 and not 1036) has exactly its `dataSize` bytes (plus padding)
consumed, leaving the parser aligned on the following block; (ii) for
the raw-preview id 1033 the data bytes are not consumed — only the block
header plus at most one padding byte — so the parser is left misaligned
(strictly before the end of the block); (iii) for a well-formed
container whose image-resources section holds exactly one raw-preview
(1033) resource whose even-length data does not begin with the `8BIM`
marker, extraction returns `None`. -/
theorem extract_raw_thumbnail_behaviour :
    (∀ (loadOk : Bytes → Bool) (bs : Bytes) (p rid : Nat) (name payload rest : Bytes),
      bs.drop p = resBlock rid name payload ++ rest → rid < 65536 → ¬rid = 1033 →
      ¬rid = 1036 → name.length ≤ 255 → payload.length < 2 ^ 32 →
      step loadOk ⟨bs, p⟩ = .next ⟨bs, p + (resBlock rid name payload).length⟩)
    ∧ (∀ (loadOk : Bytes → Bool) (bs : Bytes) (p : Nat) (name payload rest : Bytes),
      bs.drop p = resBlock 1033 name payload ++ rest → name.length ≤ 255 →
      payload.length < 2 ^ 32 → 0 < payload.length →
      step loadOk ⟨bs, p⟩ = .next ⟨bs, p + resHeaderLen name + payload.length % 2⟩ ∧
        p + resHeaderLen name + payload.length % 2 < p + (resBlock 1033 name payload).length)
    ∧ (∀ (loadOk : Bytes → Bool) (version : Nat) (reserved : Bytes)
        (channels height width depth colorMode : Nat) (cm name payload tail : Bytes),
      reserved.length = 6 → cm.length < 2 ^ 32 → name.length ≤ 255 →
      (resBlock 1033 name payload).length < 2 ^ 32 →
      payload.length % 2 = 0 → 4 ≤ payload.length → payload.take 4 ≠ marker8BIM →
      extract_psd_thumbnail loadOk (mkPSD version reserved channels height width depth
        colorMode cm (resBlock 1033 name payload) tail) = none) := by
  refine ⟨?_, ?_, ?_⟩
  · intro loadOk bs p rid name payload rest h hrid hA hB _ hpay
    exact ((step_resBlock loadOk bs p rid name payload rest h hrid hpay).1 hA hB).1
  · intro loadOk bs p name payload rest h _ hpay hpos
    refine ⟨(step_resBlock loadOk bs p 1033 name payload rest h (by omega) hpay).2 rfl, ?_⟩
    rw [resBlock_length]
    omega
  · intro loadOk version reserved channels height width depth colorMode cm name payload tail
      hres6 hcm _ hresl heven hp4 hmark
    have hpay : payload.length < 2 ^ 32 := by
      have := resBlock_length 1033 name payload
      omega
    obtain ⟨hbody, hdrop⟩ := extractBody_mkPSD loadOk version reserved channels height width
      depth colorMode cm (resBlock 1033 name payload) tail hres6 hcm hresl
    set bs := mkPSD version reserved channels height width depth colorMode cm
      (resBlock 1033 name payload) tail with hbs
    have hstep1 : step loadOk ⟨bs, 34 + cm.length⟩ =
        .next ⟨bs, 34 + cm.length + resHeaderLen name⟩ := by
      have := (step_resBlock loadOk bs (34 + cm.length) 1033 name payload tail hdrop
        (by omega) hpay).2 rfl
      rwa [heven, Nat.add_zero] at this
    have hsplit : resBlock 1033 name payload ++ tail =
        (marker8BIM ++ be2 1033 ++ [name.length] ++ name ++
          List.replicate ((name.length + 1) % 2) 0 ++ be4 payload.length) ++
          (payload ++ tail) := by
      simp [resBlock, heven, List.append_assoc]
    have hAlen : (marker8BIM ++ be2 1033 ++ [name.length] ++ name ++
        List.replicate ((name.length + 1) % 2) 0 ++ be4 payload.length).length =
        resHeaderLen name := by
      simp [resHeaderLen, marker8BIM, be2, be4]
      omega
    have hdrop2 : bs.drop (34 + cm.length + resHeaderLen name) = payload ++ tail :=
      (readN_append bs (34 + cm.length) (resHeaderLen name) _ (payload ++ tail)
        (hdrop.trans hsplit) hAlen).2
    have hstep2 : step loadOk ⟨bs, 34 + cm.length + resHeaderLen name⟩ = .halt := by
      have htake : (bs.drop (34 + cm.length + resHeaderLen name)).take 4 ≠ marker8BIM := by
        rw [hdrop2, List.take_append_of_le_length hp4]
        exact hmark
      simp only [step, readN]
      rw [if_pos htake]
    have hRL : (resBlock 1033 name payload).length = resHeaderLen name + payload.length := by
      rw [resBlock_length, heven, Nat.add_zero]
    have hloop : loopRes loadOk (34 + cm.length + (resBlock 1033 name payload).length)
        (bs.length + 1) ⟨bs, 34 + cm.length⟩ = .ok none := by
      have hfuel : ∃ k, bs.length = k + 1 := by
        refine ⟨bs.length - 1, ?_⟩
        have : 4 ≤ bs.length := by
          rw [hbs]
          simp only [mkPSD, List.length_append, sigPSD, List.length_cons, List.length_nil]
          omega
        omega
      obtain ⟨k, hk⟩ := hfuel
      rw [hk]
      simp only [loopRes]
      rw [if_pos (by simp only [hRL]; omega), hstep1]
      simp only [loopRes]
      rw [if_pos (by simp only [hRL]; omega), hstep2]
    simp only [extract_psd_thumbnail, hbody, hloop]

/-- Witness for the amended C1 theorem: concrete instances for all three
parts, at the resource ids 1000 and 1033 and a concrete container whose
only resource is a raw (1033) preview with data `[1, 2, 3, 4]`. -/
theorem extract_raw_thumbnail_behaviour_witness :
    step (fun _ => false) ⟨resBlock 1000 [] [7], 0⟩ =
        .next ⟨resBlock 1000 [] [7], 0 + (resBlock 1000 [] [7]).length⟩ ∧
      step (fun _ => false) ⟨resBlock 1033 [] [1, 2, 3, 4], 0⟩ =
        .next ⟨resBlock 1033 [] [1, 2, 3, 4], 0 + resHeaderLen [] + [1, 2, 3, 4].length % 2⟩ ∧
      extract_psd_thumbnail (fun _ => true)
        (mkPSD 1 [0, 0, 0, 0, 0, 0] 3 1 1 8 3 [] (resBlock 1033 [] [1, 2, 3, 4]) []) = none :=
  ⟨extract_raw_thumbnail_behaviour.1 (fun _ => false) (resBlock 1000 [] [7]) 0 1000 [] [7] []
      (by decide) (by decide) (by decide) (by decide) (by decide) (by decide),
    (extract_raw_thumbnail_behaviour.2.1 (fun _ => false) (resBlock 1033 [] [1, 2, 3, 4]) 0 []
      [1, 2, 3, 4] [] (by decide) (by decide) (by decide) (by decide)).1,
    extract_raw_thumbnail_behaviour.2.2 (fun _ => true) 1 [0, 0, 0, 0, 0, 0] 3 1 1 8 3 [] []
      [1, 2, 3, 4] [] (by decide) (by decide) (by decide) (by decide) (by decide) (by decide)
      (by decide)⟩

/-- C5: for any byte sequence whose first four bytes are not the `8BPS`
signature, `extract_psd_thumbnail` returns `None`; and whenever the body
of the parser raises (any malformed or truncated input), the surrounding
`try`/`except` converts the exception into `None`, so extraction never
propagates an error. -/
theorem extract_none_on_bad_signature_or_raise (loadOk : Bytes → Bool) (bs : Bytes) :
    (bs.take 4 ≠ sigPSD → extract_psd_thumbnail loadOk bs = none) ∧
    (∀ e, extractBody loadOk bs = .error e → extract_psd_thumbnail loadOk bs = none) := by
  refine ⟨?_, ?_⟩
  · intro hsig
    have hbody : extractBody loadOk bs = .ok none := by
      simp only [extractBody, readN, List.drop_zero]
      rw [if_pos]
      simpa using hsig
    simp [extract_psd_thumbnail, hbody]
  · intro e he
    simp [extract_psd_thumbnail, he]

/-- Witness for C5 at the concrete input `[0, 0, 0, 0]`. -/
theorem extract_none_on_bad_signature_or_raise_witness :
    ([0, 0, 0, 0] : Bytes).take 4 ≠ sigPSD ∧
      extract_psd_thumbnail (fun _ => true) [0, 0, 0, 0] = none :=
  ⟨by decide, (extract_none_on_bad_signature_or_raise (fun _ => true) [0, 0, 0, 0]).1 (by decide)⟩

/-! ## List scanning helpers for the path lemmas -/

theorem takeWhile_append_stop {α : Type} (p : α → Bool) (xs ys : List α) (y : α)
    (hxs : ∀ x ∈ xs, p x = true) (hy : p y = false) :
    (xs ++ y :: ys).takeWhile p = xs ∧ (xs ++ y :: ys).dropWhile p = y :: ys := by
  induction xs with
  | nil => simp [List.takeWhile, List.dropWhile, hy]
  | cons a xs ih =>
    have ha : p a = true := hxs a (by simp)
    have ih' := ih (fun x hx => hxs x (by simp [hx]))
    simp [List.takeWhile, List.dropWhile, ha, ih'.1, ih'.2]

theorem dropWhile_head_false {α : Type} (p : α → Bool) (l xs : List α) (x : α)
    (h : l.dropWhile p = x :: xs) : p x = false := by
  induction l with
  | nil => simp [List.dropWhile] at h
  | cons a l ih =>
    by_cases ha : p a = true
    · rw [List.dropWhile_cons_of_pos ha] at h
      exact ih h
    · rw [List.dropWhile_cons_of_neg ha] at h
      cases h
      simpa using ha

theorem dropWhile_append_nil {α : Type} (p : α → Bool) (xs ys : List α)
    (hxs : ∀ x ∈ xs, p x = true) (hys : ys.dropWhile p = []) :
    (xs ++ ys).dropWhile p = [] := by
  rw [List.dropWhile_eq_nil_iff] at hys ⊢
  intro x hx
  rcases List.mem_append.mp hx with h | h
  · exact hxs x h
  · exact hys x h

/-! ## Decimal rendering of the counter -/

theorem digitChar_toNat (d : Nat) (h : d < 10) : (digitChar d).toNat = 48 + d := by
  interval_cases d <;> decide

theorem digitChar_sane (d : Nat) (h : d < 10) : digitChar d ≠ '/' ∧ digitChar d ≠ '.' := by
  interval_cases d <;> exact ⟨by decide, by decide⟩

theorem reprDigitsCore_fuel : ∀ (n f1 f2 : Nat), n ≤ f1 → n ≤ f2 →
    reprDigitsCore f1 n = reprDigitsCore f2 n := by
  intro n
  induction n using Nat.strong_induction_on with
  | _ n ih =>
    intro f1 f2 h1 h2
    match n, f1, f2 with
    | 0, f1, f2 => cases f1 <;> cases f2 <;> rfl
    | m + 1, a + 1, b + 1 =>
      rw [reprDigitsCore, reprDigitsCore]
      have hdiv : (m + 1) / 10 < m + 1 := Nat.div_lt_self (Nat.succ_pos m) (by omega)
      rw [ih ((m + 1) / 10) hdiv a b (by omega) (by omega)]

theorem reprDigits_succ (m : Nat) :
    reprDigits (m + 1) = reprDigits ((m + 1) / 10) ++ [digitChar ((m + 1) % 10)] := by
  show reprDigitsCore (m + 1) (m + 1) = reprDigitsCore ((m + 1) / 10) ((m + 1) / 10) ++ _
  rw [reprDigitsCore]
  have hdiv : (m + 1) / 10 < m + 1 := Nat.div_lt_self (Nat.succ_pos m) (by omega)
  rw [reprDigitsCore_fuel ((m + 1) / 10) m ((m + 1) / 10) (by omega) (by omega)]

theorem parseBack_append_digit (xs : PyStr) (c : Char) :
    parseBack (xs ++ [c]) = parseBack xs * 10 + (c.toNat - 48) := by
  simp [parseBack, List.foldl_append]

theorem parseBack_reprDigits (n : Nat) : parseBack (reprDigits n) = n := by
  induction n using Nat.strong_induction_on with
  | _ n ih =>
    match n with
    | 0 => simp [reprDigits, reprDigitsCore, parseBack]
    | m + 1 =>
      rw [reprDigits_succ, parseBack_append_digit,
        ih ((m + 1) / 10) (Nat.div_lt_self (Nat.succ_pos m) (by omega)),
        digitChar_toNat ((m + 1) % 10) (Nat.mod_lt _ (by omega))]
      omega

theorem parseBack_natRepr (n : Nat) : parseBack (natRepr n) = n := by
  rcases Nat.eq_zero_or_pos n with h | h
  · subst h; rfl
  · rw [natRepr, if_neg (by omega)]
    exact parseBack_reprDigits n

theorem natRepr_inj (a b : Nat) (h : natRepr a = natRepr b) : a = b := by
  have := congrArg parseBack h
  rwa [parseBack_natRepr, parseBack_natRepr] at this

theorem reprDigits_sane (n : Nat) : ∀ c ∈ reprDigits n, c ≠ '/' ∧ c ≠ '.' := by
  induction n using Nat.strong_induction_on with
  | _ n ih =>
    match n with
    | 0 => intro c hc; simp [reprDigits, reprDigitsCore] at hc
    | m + 1 =>
      intro c hc
      rw [reprDigits_succ] at hc
      rcases List.mem_append.mp hc with h | h
      · exact ih ((m + 1) / 10) (Nat.div_lt_self (Nat.succ_pos m) (by omega)) c h
      · obtain rfl : c = digitChar ((m + 1) % 10) := by simpa using h
        exact digitChar_sane _ (Nat.mod_lt _ (by omega))

theorem natRepr_sane (n : Nat) : ∀ c ∈ natRepr n, c ≠ '/' ∧ c ≠ '.' := by
  rcases Nat.eq_zero_or_pos n with h | h
  · subst h; intro c hc; simp [natRepr] at hc; subst hc; exact ⟨by decide, by decide⟩
  · rw [natRepr, if_neg (by omega)]
    exact reprDigits_sane n

/-! ## `os.path` lemmas -/

theorem basename_no_slash (p : PyStr) : ∀ c ∈ basename p, c ≠ '/' := by
  intro c hc
  rw [basename, List.mem_reverse] at hc
  have := List.mem_takeWhile_imp hc
  simpa [notSlash] using this

theorem dirname_ends_slash_imp_all (q : PyStr)
    (h : (dirname q).reverse.take 1 = ['/']) :
    (dirname q).all isSlashC = true := by
  rw [dirname]
  split_ifs with hall
  · exact hall
  · exfalso
    rw [dirname] at h
    rw [if_neg hall] at h
    rw [List.reverse_reverse] at h
    cases hdw : (rawHead q).reverse.dropWhile isSlashC with
    | nil => rw [hdw] at h; simp at h
    | cons y ys =>
      rw [hdw] at h
      have hy := dropWhile_head_false _ _ _ _ hdw
      simp [isSlashC] at h hy
      exact hy h

/-- `os.path.join` of a directory produced by `dirname` with a nonempty
separator-free filename: the joined path splits back into exactly that
directory and that filename. -/
theorem dirname_joinPath (q b : PyStr) (hb : ∀ c ∈ b, c ≠ '/') (hbne : b ≠ []) :
    dirname (joinPath (dirname q) b) = dirname q ∧
      basename (joinPath (dirname q) b) = b := by
  set d := dirname q with hd
  have hbrev : ∀ c ∈ b.reverse, notSlash c = true := by
    intro c hc
    simp only [notSlash, decide_eq_true_eq]
    exact hb c (List.mem_reverse.mp hc)
  have hb1 : ¬(b.take 1 = ['/']) := by
    cases b with
    | nil => simp at hbne
    | cons c cs =>
      simp only [List.take, List.cons.injEq, and_true]
      intro hcs
      exact hb c (by simp) (by simp [hcs])
  rw [joinPath, if_neg hb1]
  by_cases hdnil : d = []
  · rw [if_pos hdnil, hdnil]
    constructor
    · rw [dirname, rawHead]
      have hdw : b.reverse.dropWhile notSlash = [] := by
        rw [List.dropWhile_eq_nil_iff]
        intro x hx
        simpa [notSlash] using hb x (List.mem_reverse.mp hx)
      rw [hdw]
      simp
    · rw [basename]
      have htw : b.reverse.takeWhile notSlash = b.reverse := by
        rw [List.takeWhile_eq_self_iff]
        intro x hx
        simpa [notSlash] using hb x (List.mem_reverse.mp hx)
      rw [htw, List.reverse_reverse]
  · rw [if_neg hdnil]
    by_cases hsl : d.reverse.take 1 = ['/']
    · rw [if_pos hsl]
      have hall : d.all isSlashC = true := dirname_ends_slash_imp_all q hsl
      obtain ⟨rest, hrest⟩ : ∃ rest, d.reverse = '/' :: rest := by
        cases hdr : d.reverse with
        | nil =>
          exfalso
          exact hdnil (by simpa using congrArg List.reverse hdr)
        | cons y ys =>
          rw [hdr] at hsl
          simp only [List.take, List.cons.injEq, and_true] at hsl
          exact ⟨ys, by rw [hsl]⟩
      have hsplit := takeWhile_append_stop notSlash b.reverse rest '/'
        hbrev (by decide)
      have hraw : rawHead (d ++ b) = d := by
        rw [rawHead, List.reverse_append, hrest, hsplit.2, ← hrest, List.reverse_reverse]
      constructor
      · rw [dirname, hraw, if_pos hall]
      · rw [basename, List.reverse_append, hrest, hsplit.1, List.reverse_reverse]
    · rw [if_neg hsl]
      obtain ⟨y, rest, hyrest, hy⟩ : ∃ y rest, d.reverse = y :: rest ∧ y ≠ '/' := by
        cases hdr : d.reverse with
        | nil =>
          exfalso
          exact hdnil (by simpa using congrArg List.reverse hdr)
        | cons y ys =>
          refine ⟨y, ys, rfl, ?_⟩
          rw [hdr] at hsl
          simp only [List.take, List.cons.injEq, and_true] at hsl
          exact fun hcontra => hsl hcontra
      have hrev : (d ++ '/' :: b).reverse = b.reverse ++ '/' :: d.reverse := by
        simp
      have hsplit := takeWhile_append_stop notSlash b.reverse d.reverse '/'
        hbrev (by decide)
      have hraw : rawHead (d ++ '/' :: b) = d ++ ['/'] := by
        rw [rawHead, hrev, hsplit.2]
        simp
      constructor
      · rw [dirname, hraw]
        have hallf : (d ++ ['/']).all isSlashC ≠ true := by
          intro hset
          rw [List.all_eq_true] at hset
          have hyd : y ∈ d := List.mem_reverse.mp (by rw [hyrest]; simp)
          have := hset y (List.mem_append_left _ hyd)
          simp [isSlashC] at this
          exact hy this
        rw [if_neg hallf]
        rw [List.reverse_append]
        simp only [List.reverse_cons, List.reverse_nil, List.nil_append, List.singleton_append]
        rw [List.dropWhile_cons_of_pos (by decide), hyrest,
          List.dropWhile_cons_of_neg (by simp [isSlashC, hy]), ← hyrest, List.reverse_reverse]
      · rw [basename, hrev, hsplit.1, List.reverse_reverse]

end Mockup

namespace Mockup

/-! ## `splitext` lemmas -/

theorem splitext_append (b : PyStr) : (splitext b).1 ++ (splitext b).2 = b := by
  cases hdw : b.reverse.dropWhile notDot with
  | nil =>
    simp [splitext, hdw]
  | cons x nameRev =>
    have hx : x = '.' := by
      have := dropWhile_head_false _ _ _ _ hdw
      simpa [notDot] using this
    subst hx
    have hb : b = nameRev.reverse ++
        '.' :: (b.reverse.takeWhile notDot).reverse := by
      have h1 : b.reverse.takeWhile notDot ++ ('.' :: nameRev) =
          b.reverse := by
        rw [← hdw]
        exact List.takeWhile_append_dropWhile _ _
      have h2 := congrArg List.reverse h1
      simpa using h2.symm
    simp only [splitext, hdw]
    split_ifs with hany
    · exact hb.symm
    · simp

theorem splitext_name_chars (b : PyStr) : ∀ c ∈ (splitext b).1, c ∈ b := by
  intro c hc
  rw [← splitext_append b]
  exact List.mem_append_left _ hc

theorem splitext_ext_chars (b : PyStr) : ∀ c ∈ (splitext b).2, c ∈ b := by
  intro c hc
  rw [← splitext_append b]
  exact List.mem_append_right _ hc

/-- Inserting a nonempty dot-free string between the stem and the
extension does not change the extension computed by `splitext`: the
suffix lands in the stem, never after the extension. -/
theorem splitext_mid (b mid : PyStr) (hne : mid ≠ []) (hnd : ∀ c ∈ mid, c ≠ '.') :
    splitext ((splitext b).1 ++ mid ++ (splitext b).2) = ((splitext b).1 ++ mid, (splitext b).2) := by
  have hmidrev : ∀ c ∈ mid.reverse, notDot c = true := by
    intro c hc
    simp only [notDot, decide_eq_true_eq]
    exact hnd c (List.mem_reverse.mp hc)
  have htwE : ∀ c ∈ b.reverse.takeWhile notDot,
      notDot c = true := by
    intro c hc
    exact List.mem_takeWhile_imp hc
  cases hdw : b.reverse.dropWhile notDot with
  | nil =>
    have hall : ∀ c ∈ b.reverse, notDot c = true := by
      rw [← List.dropWhile_eq_nil_iff]
      exact hdw
    have hdw2 : (b ++ mid).reverse.dropWhile notDot = [] := by
      rw [List.reverse_append]
      exact dropWhile_append_nil _ _ _ hmidrev hdw
    simp only [splitext, hdw, hdw2, List.append_nil]
  | cons x nameRev =>
    have hx : x = '.' := by
      have := dropWhile_head_false _ _ _ _ hdw
      simpa [notDot] using this
    subst hx
    have hsplitb : b.reverse.takeWhile notDot ++ ('.' :: nameRev) =
        b.reverse := by
      rw [← hdw]
      exact List.takeWhile_append_dropWhile _ _
    simp only [splitext, hdw]
    split_ifs with hany
    · -- splitext b = (nameRev.reverse, '.' :: e.reverse)
      -- new string: nameRev.reverse ++ mid ++ '.' :: e.reverse
      have hrev : (nameRev.reverse ++ mid ++
          '.' :: (b.reverse.takeWhile notDot).reverse).reverse =
          b.reverse.takeWhile notDot ++
            '.' :: (mid.reverse ++ nameRev) := by
        simp [List.append_assoc]
      have hstop := takeWhile_append_stop notDot
        (b.reverse.takeWhile notDot) (mid.reverse ++ nameRev) '.'
        htwE (by decide)
      have hany2 : (mid.reverse ++ nameRev).any notDot = true := by
        rw [List.any_eq_true]
        obtain ⟨m, hm⟩ : ∃ m, m ∈ mid := List.exists_mem_of_ne_nil mid hne
        exact ⟨m, List.mem_append_left _ (List.mem_reverse.mpr hm), by simp [notDot, hnd m hm]⟩
      rw [hrev, hstop.2]
      simp [hany2, hstop.1]
    · -- splitext b = (b, []): the whole of b before its last dot is dots
      simp only [List.append_nil]
      have hrev : (b ++ mid).reverse = mid.reverse ++
          (b.reverse.takeWhile notDot ++ '.' :: nameRev) := by
        rw [hsplitb]
        simp
      have hstop := takeWhile_append_stop notDot
        (mid.reverse ++ b.reverse.takeWhile notDot) nameRev '.'
        (by
          intro c hc
          rcases List.mem_append.mp hc with h | h
          · exact hmidrev c h
          · exact htwE c h)
        (by decide)
      rw [hrev, ← List.append_assoc, hstop.2]
      simp [hany]

end Mockup

namespace Mockup

/-! ## `get_unique_filepath` lemmas -/

theorem mkCandidate_inj (d n e : PyStr) (hn : ∀ c ∈ n, c ≠ '/') (c1 c2 : Nat)
    (h : mkCandidate d n e c1 = mkCandidate d n e c2) : c1 = c2 := by
  have hbt : ∀ cN : Nat, (n ++ '_' :: (natRepr cN ++ e)).take 1 ≠ ['/'] := by
    intro cN
    cases n with
    | nil => simp
    | cons a as =>
      simp only [List.cons_append, List.take]
      intro ha
      exact hn a (by simp) (by simpa using ha)
  rw [mkCandidate, mkCandidate, joinPath, joinPath, if_neg (hbt c1), if_neg (hbt c2)] at h
  have hb : n ++ '_' :: (natRepr c1 ++ e) = n ++ '_' :: (natRepr c2 ++ e) := by
    split_ifs at h with h1 h2
    · exact h
    · exact List.append_cancel_left h
    · simpa using List.append_cancel_left h
  have h2 := List.append_cancel_left hb
  rw [List.cons.injEq] at h2
  exact natRepr_inj c1 c2 (List.append_cancel_right h2.2)

theorem exists_free_counter (fs : List PyStr) (d n e : PyStr) (hn : ∀ c ∈ n, c ≠ '/') :
    ∃ c, 1 ≤ c ∧ c < fs.length + 2 ∧ mkCandidate d n e c ∉ fs := by
  by_contra hcon
  push_neg at hcon
  have hmaps : ∀ c ∈ Finset.Icc 1 (fs.length + 1), mkCandidate d n e c ∈ fs.toFinset := by
    intro c hc
    rw [Finset.mem_Icc] at hc
    rw [List.mem_toFinset]
    exact hcon c hc.1 (by omega)
  have hinj : Set.InjOn (mkCandidate d n e) (Finset.Icc 1 (fs.length + 1)) :=
    fun a _ b _ hab => mkCandidate_inj d n e hn a b hab
  have hcard := Finset.card_le_card_of_injOn _ hmaps hinj
  rw [Nat.card_Icc] at hcard
  have hle := fs.toFinset_card_le
  omega

theorem uniqLoop_isSome (fs : List PyStr) (d n e : PyStr) : ∀ (fuel start : Nat),
    (∃ c, start ≤ c ∧ c < start + fuel ∧ mkCandidate d n e c ∉ fs) →
    (uniqLoop fs d n e fuel start).isSome = true := by
  intro fuel
  induction fuel with
  | zero =>
    rintro start ⟨c, h1, h2, _⟩
    omega
  | succ k ih =>
    rintro start ⟨c, h1, h2, h3⟩
    rw [uniqLoop]
    split_ifs with hmem
    · have hcs : c ≠ start := by
        intro hcs
        subst hcs
        exact h3 hmem
      exact ih (start + 1) ⟨c, by omega, by omega, h3⟩
    · rfl

theorem uniqLoop_spec (fs : List PyStr) (d n e : PyStr) : ∀ (fuel start : Nat) (q : PyStr),
    uniqLoop fs d n e fuel start = some q →
    ∃ c, start ≤ c ∧ q = mkCandidate d n e c ∧ q ∉ fs ∧
      ∀ j, start ≤ j → j < c → mkCandidate d n e j ∈ fs := by
  intro fuel
  induction fuel with
  | zero =>
    intro start q h
    simp [uniqLoop] at h
  | succ k ih =>
    intro start q h
    rw [uniqLoop] at h
    split_ifs at h with hmem
    · obtain ⟨c, hc1, hc2, hc3, hc4⟩ := ih (start + 1) q h
      refine ⟨c, by omega, hc2, hc3, fun j hj1 hj2 => ?_⟩
      rcases Nat.eq_or_lt_of_le hj1 with rfl | hlt
      · exact hmem
      · exact hc4 j (by omega) hj2
    · cases h
      exact ⟨start, Nat.le_refl _, rfl, hmem, fun j hj1 hj2 => absurd hj1 (by omega)⟩

/-- Shared shape of `get_unique_filepath` on an existing path: the
result is the candidate for the least counter at least 1 whose path
does not exist. -/
theorem get_unique_filepath_mem (fs : List PyStr) (p : PyStr) (hp : p ∈ fs) :
    ∃ c, 1 ≤ c ∧
      get_unique_filepath fs p =
        mkCandidate (dirname p) (splitext (basename p)).1 (splitext (basename p)).2 c ∧
      get_unique_filepath fs p ∉ fs ∧
      ∀ j, 1 ≤ j → j < c →
        mkCandidate (dirname p) (splitext (basename p)).1 (splitext (basename p)).2 j ∈ fs := by
  have hn : ∀ c ∈ (splitext (basename p)).1, c ≠ '/' := fun c hc =>
    basename_no_slash p c (splitext_name_chars (basename p) c hc)
  obtain ⟨c0, hc01, hc02, hfree⟩ :=
    exists_free_counter fs (dirname p) (splitext (basename p)).1 (splitext (basename p)).2 hn
  have hsome := uniqLoop_isSome fs (dirname p) (splitext (basename p)).1
    (splitext (basename p)).2 (fs.length + 1) 1 ⟨c0, hc01, by omega, hfree⟩
  obtain ⟨q, hq⟩ := Option.isSome_iff_exists.mp hsome
  obtain ⟨c, hc1, hc2, hc3, hc4⟩ := uniqLoop_spec fs (dirname p) (splitext (basename p)).1
    (splitext (basename p)).2 (fs.length + 1) 1 q hq
  have hval : get_unique_filepath fs p = q := by
    rw [get_unique_filepath, if_neg (not_not.mpr hp)]
    simp only [hq]
  rw [hval]
  exact ⟨c, hc1, hc2, hc3, hc4⟩

/-- C6: `get_unique_filepath` returns a non-existing candidate path
unchanged; an existing path gets the suffix `_{counter}` before the
extension for the smallest counter at least 1 whose path does not
exist; with `m.jpg`, `m_1.jpg`, `m_2.jpg` present, `m.jpg` resolves to
`m_3.jpg`. -/
theorem get_unique_filepath_spec :
    (∀ (fs : List PyStr) (p : PyStr), p ∉ fs → get_unique_filepath fs p = p)
    ∧ (∀ (fs : List PyStr) (p : PyStr), p ∈ fs →
      ∃ c, 1 ≤ c ∧
        get_unique_filepath fs p =
          mkCandidate (dirname p) (splitext (basename p)).1 (splitext (basename p)).2 c ∧
        get_unique_filepath fs p ∉ fs ∧
        ∀ j, 1 ≤ j → j < c →
          mkCandidate (dirname p) (splitext (basename p)).1 (splitext (basename p)).2 j ∈ fs)
    ∧ get_unique_filepath ["m.jpg".toList, "m_1.jpg".toList, "m_2.jpg".toList] "m.jpg".toList =
        "m_3.jpg".toList := by
  refine ⟨?_, get_unique_filepath_mem, ?_⟩
  · intro fs p hp
    rw [get_unique_filepath, if_pos hp]
  · decide

/-- Witness for C6: concrete instances of both conditional parts. -/
theorem get_unique_filepath_spec_witness :
    get_unique_filepath ["a.psd".toList] "fresh.jpg".toList = "fresh.jpg".toList ∧
      ∃ c, 1 ≤ c ∧
        get_unique_filepath ["m.jpg".toList] "m.jpg".toList =
          mkCandidate (dirname "m.jpg".toList) (splitext (basename "m.jpg".toList)).1
            (splitext (basename "m.jpg".toList)).2 c ∧
        get_unique_filepath ["m.jpg".toList] "m.jpg".toList ∉ ["m.jpg".toList] ∧
        ∀ j, 1 ≤ j → j < c →
          mkCandidate (dirname "m.jpg".toList) (splitext (basename "m.jpg".toList)).1
            (splitext (basename "m.jpg".toList)).2 j ∈ ["m.jpg".toList] :=
  ⟨get_unique_filepath_spec.1 ["a.psd".toList] "fresh.jpg".toList (by decide),
    get_unique_filepath_spec.2.1 ["m.jpg".toList] "m.jpg".toList (by decide)⟩

/-- C10: the path returned by `get_unique_filepath` lies in the same
directory as the input, carries the same extension, and either equals
the input or is `{name}_{counter}{ext}` for some counter at least 1
applied to the input's stem — the suffix is inserted before the
extension, never appended after it. -/
theorem get_unique_filepath_shape (fs : List PyStr) (p : PyStr) :
    dirname (get_unique_filepath fs p) = dirname p ∧
      (splitext (basename (get_unique_filepath fs p))).2 = (splitext (basename p)).2 ∧
      (get_unique_filepath fs p = p ∨
        ∃ c, 1 ≤ c ∧
          get_unique_filepath fs p =
            joinPath (dirname p)
              ((splitext (basename p)).1 ++ '_' ::
                (natRepr c ++ (splitext (basename p)).2))) := by
  by_cases hp : p ∈ fs
  · obtain ⟨c, hc1, hc2, _, _⟩ := get_unique_filepath_mem fs p hp
    have hmid : ∀ ch ∈ ('_' :: natRepr c), ch ≠ '.' := by
      intro ch hch
      rcases List.mem_cons.mp hch with rfl | hch2
      · decide
      · exact (natRepr_sane c ch hch2).2
    have hbchars : ∀ ch ∈ (splitext (basename p)).1 ++ '_' ::
        (natRepr c ++ (splitext (basename p)).2), ch ≠ '/' := by
      intro ch hch
      rcases List.mem_append.mp hch with h | h
      · exact basename_no_slash p ch (splitext_name_chars (basename p) ch h)
      · rcases List.mem_cons.mp h with rfl | h2
        · decide
        · rcases List.mem_append.mp h2 with h3 | h3
          · exact (natRepr_sane c ch h3).1
          · exact basename_no_slash p ch (splitext_ext_chars (basename p) ch h3)
    have hbne : (splitext (basename p)).1 ++ '_' ::
        (natRepr c ++ (splitext (basename p)).2) ≠ [] := by
      intro hcontra
      have := congrArg List.length hcontra
      simp at this
    have hjoin := dirname_joinPath p ((splitext (basename p)).1 ++ '_' ::
      (natRepr c ++ (splitext (basename p)).2)) hbchars hbne
    have hassoc : (splitext (basename p)).1 ++ '_' ::
        (natRepr c ++ (splitext (basename p)).2) =
        (splitext (basename p)).1 ++ ('_' :: natRepr c) ++ (splitext (basename p)).2 := by
      simp
    refine ⟨?_, ?_, Or.inr ⟨c, hc1, by rw [hc2, mkCandidate]⟩⟩
    · rw [hc2, mkCandidate]
      exact hjoin.1
    · rw [hc2, mkCandidate]
      rw [hjoin.2, hassoc, splitext_mid (basename p) ('_' :: natRepr c) (by simp) hmid]
  · rw [get_unique_filepath, if_pos hp]
    exact ⟨rfl, rfl, Or.inl rfl⟩

end Mockup

namespace Mockup

/-! ## `Worker.run` lemmas -/

theorem runItems_facts (render : PyStr → PyStr → PyStr → Except String Unit)
    (art outDir : PyStr) : ∀ (psds : List PyStr) (i total : Nat) (fs : List PyStr),
    (runItems render art outDir psds i total fs).1.length = psds.length ∧
    (runItems render art outDir psds i total fs).2 =
      (List.range psds.length).map (fun k => pyProgress (i + k) total) ∧
    ∀ rec ∈ (runItems render art outDir psds i total fs).1,
      rec.outcome = render rec.psd art rec.out := by
  intro psds
  induction psds with
  | nil =>
    intro i total fs
    simp [runItems]
  | cons psd rest ih =>
    intro i total fs
    obtain ⟨h1, h2, h3⟩ := ih (i + 1) total
      (match render psd art
          (get_unique_filepath fs (joinPath outDir ((splitext (basename psd)).1 ++
            ".jpg".toList))) with
        | .ok _ => get_unique_filepath fs (joinPath outDir ((splitext (basename psd)).1 ++
            ".jpg".toList)) :: fs
        | .error _ => fs)
    refine ⟨?_, ?_, ?_⟩
    · simp only [runItems, List.length_cons]
      rw [h1]
    · simp only [runItems]
      rw [h2, List.length_cons, List.range_succ_eq_map, List.map_cons, List.map_map]
      refine congrArg₂ _ (by rw [Nat.add_zero]) ?_
      apply List.map_congr_left
      intro k _
      simp only [Function.comp]
      rw [show i + (k + 1) = i + 1 + k from by omega]
    · intro rec hrec
      simp only [runItems, List.mem_cons] at hrec
      rcases hrec with rfl | hrec
      · rfl
      · exact h3 rec hrec

/-- C3: when the preflight Photoshop probe fails, `Worker.run` emits a
single structured error and stops: zero render invocations, zero
per-item records, zero progress events, no completion signal — for
every job and every renderer, so the check happens before any per-item
work. -/
theorem run_preflight_aborts (render : PyStr → PyStr → PyStr → Except String Unit)
    (fs : List PyStr) (job : Job) :
    (run false render fs job).errorEvents = ["Photoshop not found".toList] ∧
      (run false render fs job).items = [] ∧
      (run false render fs job).progressEvents = [] ∧
      (run false render fs job).finishedEvents = 0 := by
  refine ⟨rfl, rfl, rfl, rfl⟩

/-- C4: when preflight passes, every template is processed regardless
of individual renderer failures (one item record per template, each
recording exactly the renderer's outcome for it), no error signal is
emitted, and the completion signal fires exactly once, after the last
item; in the spec's scenario (3 templates, the second render raises)
the outcomes are `[Success, Failed, Success]`. -/
theorem run_per_item_failure_isolation (render : PyStr → PyStr → PyStr → Except String Unit)
    (fs : List PyStr) (job : Job) :
    (run true render fs job).items.length = job.psds.length ∧
      (run true render fs job).finishedEvents = 1 ∧
      (run true render fs job).errorEvents = [] ∧
      (run true render fs job).progressEvents.length = job.psds.length ∧
      (∀ rec ∈ (run true render fs job).items,
        rec.outcome = render rec.psd job.art rec.out) ∧
      (run true (fun p _ _ => if p = "b.psd".toList then .error "boom" else .ok ()) []
          ⟨["a.psd".toList, "b.psd".toList, "c.psd".toList], "art.png".toList,
            "out".toList⟩).items.map ItemRecord.outcome =
        [.ok (), .error "boom", .ok ()] := by
  obtain ⟨h1, h2, h3⟩ := runItems_facts render job.art job.out_dir job.psds 1
    job.psds.length fs
  refine ⟨?_, rfl, rfl, ?_, ?_, by decide⟩
  · simpa [run] using h1
  · simp [run, h2]
  · intro rec hrec
    exact h3 rec (by simpa [run] using hrec)

/-- C2, counterexample: in the spec's own end-to-end scenario (a job of
3 templates), the emitted progress sequence is not `[33, 67, 100]` — the
code truncates with `int(...)` instead of rounding, so the second value
is 66. -/
theorem run_progress_round_counterexample :
    (run true (fun p _ _ => if p = "b.psd".toList then .error "boom" else .ok ()) []
        ⟨["a.psd".toList, "b.psd".toList, "c.psd".toList], "art.png".toList,
          "out".toList⟩).progressEvents ≠ [33, 67, 100] := by
  decide

/-- C2, amended: after each item the pipeline emits one progress value
equal to `int((itemsProcessed / totalItems) * 100)` — truncation of the
double-precision product toward zero, not rounding; for a job of 3
templates the emitted sequence is `[33, 66, 100]`. -/
theorem run_progress_formula :
    (∀ (render : PyStr → PyStr → PyStr → Except String Unit) (fs : List PyStr) (job : Job),
      (run true render fs job).progressEvents =
        (List.range job.psds.length).map (fun k => pyProgress (1 + k) job.psds.length))
    ∧ (run true (fun p _ _ => if p = "b.psd".toList then .error "boom" else .ok ()) []
        ⟨["a.psd".toList, "b.psd".toList, "c.psd".toList], "art.png".toList,
          "out".toList⟩).progressEvents = [33, 66, 100] := by
  refine ⟨?_, by decide⟩
  intro render fs job
  obtain ⟨_, h2, _⟩ := runItems_facts render job.art job.out_dir job.psds 1
    job.psds.length fs
  simp [run, h2]

end Mockup

namespace Mockup

/-! ## Cloud cache lemmas -/

theorem startsWithL_append_self (l x : PyStr) : startsWithL l (l ++ x) = true := by
  induction l with
  | nil => rfl
  | cons c cs ih => simp [startsWithL, ih]

theorem startsWithL_length (p s : PyStr) (h : startsWithL p s = true) :
    p.length ≤ s.length := by
  induction p generalizing s with
  | nil => simp
  | cons c cs ih =>
    cases s with
    | nil => simp [startsWithL] at h
    | cons d ds =>
      simp only [startsWithL, Bool.and_eq_true] at h
      simpa using ih ds h.2

theorem startsWithL_self_slash_false (l : PyStr) :
    startsWithL (l ++ ['/']) l = false := by
  cases h : startsWithL (l ++ ['/']) l with
  | false => rfl
  | true =>
    have := startsWithL_length _ _ h
    simp at this

/-- C7: if a file already exists at the cache path derived from a URL,
the per-URL cache step returns that path without any fetch; and when
the URL is not cached and its download succeeds, two consecutive cache
steps for the same URL perform exactly one fetch, the second being a
cache hit. -/
theorem ensure_cache_hit_and_single_fetch :
    (∀ (md5 : PyStr → PyStr) (fetch : PyStr → Bool) (cacheDir : PyStr) (fs : List PyStr)
      (url : PyStr), joinPath cacheDir (get_cached_filename md5 url) ∈ fs →
      ensureUrl md5 fetch cacheDir fs url =
        (some (joinPath cacheDir (get_cached_filename md5 url)), fs, []))
    ∧ (∀ (md5 : PyStr → PyStr) (fetch : PyStr → Bool) (cacheDir : PyStr) (fs : List PyStr)
      (url : PyStr), joinPath cacheDir (get_cached_filename md5 url) ∉ fs →
      fetch (get_google_drive_direct_link url) = true →
      ensureUrl md5 fetch cacheDir fs url =
        (some (joinPath cacheDir (get_cached_filename md5 url)),
          joinPath cacheDir (get_cached_filename md5 url) :: fs,
          [get_google_drive_direct_link url]) ∧
      ensureUrl md5 fetch cacheDir
          (joinPath cacheDir (get_cached_filename md5 url) :: fs) url =
        (some (joinPath cacheDir (get_cached_filename md5 url)),
          joinPath cacheDir (get_cached_filename md5 url) :: fs, [])) := by
  refine ⟨?_, ?_⟩
  · intro md5 fetch cacheDir fs url hmem
    simp only [ensureUrl, if_pos hmem]
  · intro md5 fetch cacheDir fs url hmem hfetch
    constructor
    · simp only [ensureUrl, if_neg hmem, download_file, hfetch, if_pos]
    · simp only [ensureUrl, if_pos (List.mem_cons_self _ _)]

/-- Witness for C7 at a concrete URL, hash function and filesystem. -/
theorem ensure_cache_hit_and_single_fetch_witness :
    ensureUrl (fun _ => "abc".toList) (fun _ => true) "lib/_cache".toList
        ["lib/_cache/abc_y.psd".toList] "http://x/y.psd".toList =
      (some "lib/_cache/abc_y.psd".toList, ["lib/_cache/abc_y.psd".toList], []) ∧
    ensureUrl (fun _ => "abc".toList) (fun _ => true) "lib/_cache".toList []
        "http://x/y.psd".toList =
      (some "lib/_cache/abc_y.psd".toList, ["lib/_cache/abc_y.psd".toList],
        ["http://x/y.psd".toList]) := by
  constructor
  · exact ensure_cache_hit_and_single_fetch.1 (fun _ => "abc".toList) (fun _ => true)
      "lib/_cache".toList ["lib/_cache/abc_y.psd".toList] "http://x/y.psd".toList (by decide)
  · exact (ensure_cache_hit_and_single_fetch.2 (fun _ => "abc".toList) (fun _ => true)
      "lib/_cache".toList [] "http://x/y.psd".toList (by decide) (by decide)).1

/-- C8, counterexample: `clear_cache` does not leave the cache
directory existing in every starting state — when the directory does
not exist beforehand, nothing is created and failure is reported. -/
theorem clear_cache_missing_dir_counterexample :
    ¬("lib/_cache".toList ∈ (clear_cache "lib/_cache".toList []).1) ∧
      (clear_cache "lib/_cache".toList []).2 = false := by
  exact ⟨by decide, by decide⟩

/-- C8, amended: when the cache directory exists, `clear_cache` deletes
every file under it and leaves the directory existing and empty,
reporting success; when it does not exist, it does nothing and reports
failure.  In both cases it is idempotent, and (when the directory
exists) a clear followed by the cache `ensure` step performs a fetch
even for a previously cached URL. -/
theorem clear_cache_semantics :
    (∀ (cacheDir : PyStr) (fs : List PyStr), cacheDir ∈ fs →
      cacheDir ∈ (clear_cache cacheDir fs).1 ∧ (clear_cache cacheDir fs).2 = true ∧
        ∀ p ∈ (clear_cache cacheDir fs).1, startsWithL (cacheDir ++ ['/']) p = false)
    ∧ (∀ (cacheDir : PyStr) (fs : List PyStr), cacheDir ∉ fs →
      clear_cache cacheDir fs = (fs, false))
    ∧ (∀ (cacheDir : PyStr) (fs : List PyStr),
      (clear_cache cacheDir (clear_cache cacheDir fs).1).1 = (clear_cache cacheDir fs).1)
    ∧ (∀ (md5 : PyStr → PyStr) (fetch : PyStr → Bool) (cacheDir : PyStr) (fs : List PyStr)
      (url : PyStr), cacheDir ∈ fs → cacheDir ≠ [] →
      cacheDir.reverse.take 1 ≠ ['/'] →
      (get_cached_filename md5 url).take 1 ≠ ['/'] →
      (ensureUrl md5 fetch cacheDir (clear_cache cacheDir fs).1 url).2.2.length = 1) := by
  have hkeep : ∀ (cacheDir : PyStr) (fs : List PyStr), cacheDir ∈ fs →
      clear_cache cacheDir fs =
        (fs.filter (fun p => !startsWithL (cacheDir ++ ['/']) p), true) := by
    intro cacheDir fs hmem
    simp only [clear_cache, if_pos hmem]
  refine ⟨?_, ?_, ?_, ?_⟩
  · intro cacheDir fs hmem
    rw [hkeep cacheDir fs hmem]
    refine ⟨?_, rfl, ?_⟩
    · exact List.mem_filter.mpr ⟨hmem, by rw [startsWithL_self_slash_false]; rfl⟩
    · intro p hp
      have := List.of_mem_filter hp
      simpa using this
  · intro cacheDir fs hmem
    simp only [clear_cache, if_neg hmem]
  · intro cacheDir fs
    by_cases hmem : cacheDir ∈ fs
    · rw [hkeep cacheDir fs hmem]
      have hmem2 : cacheDir ∈ fs.filter (fun p => !startsWithL (cacheDir ++ ['/']) p) :=
        List.mem_filter.mpr ⟨hmem, by rw [startsWithL_self_slash_false]; rfl⟩
      rw [hkeep cacheDir _ hmem2]
      simp only [List.filter_filter]
      exact List.filter_congr (fun p _ => Bool.and_self _)
    · simp only [clear_cache, if_neg hmem]
  · intro md5 fetch cacheDir fs url hmem hne hnoslash hfname
    rw [hkeep cacheDir fs hmem]
    have hjoin : joinPath cacheDir (get_cached_filename md5 url) =
        cacheDir ++ '/' :: get_cached_filename md5 url := by
      rw [joinPath, if_neg hfname, if_neg hne, if_neg hnoslash]
    have hsw : startsWithL (cacheDir ++ ['/'])
        (joinPath cacheDir (get_cached_filename md5 url)) = true := by
      rw [hjoin, show cacheDir ++ '/' :: get_cached_filename md5 url =
        (cacheDir ++ ['/']) ++ get_cached_filename md5 url from by simp]
      exact startsWithL_append_self _ _
    have hnomem : joinPath cacheDir (get_cached_filename md5 url) ∉
        fs.filter (fun p => !startsWithL (cacheDir ++ ['/']) p) := by
      intro hcontra
      have := List.of_mem_filter hcontra
      rw [hsw] at this
      simp at this
    simp only [ensureUrl, if_neg hnomem]
    split_ifs <;> rfl

/-- Witness for C8's amended theorem at a concrete cache directory,
filesystem and URL. -/
theorem clear_cache_semantics_witness :
    ("lib/_cache".toList ∈
        (clear_cache "lib/_cache".toList
          ["lib/_cache".toList, "lib/_cache/abc.psd".toList]).1) ∧
      clear_cache "lib/_cache".toList [] = ([], false) ∧
      (ensureUrl (fun _ => "abc".toList) (fun _ => false) "lib/_cache".toList
        (clear_cache "lib/_cache".toList
          ["lib/_cache".toList, "lib/_cache/abc_y.psd".toList]).1
        "http://x/y.psd".toList).2.2.length = 1 :=
  ⟨(clear_cache_semantics.1 "lib/_cache".toList
      ["lib/_cache".toList, "lib/_cache/abc.psd".toList] (by decide)).1,
    clear_cache_semantics.2.1 "lib/_cache".toList [] (by decide),
    clear_cache_semantics.2.2.2 (fun _ => "abc".toList) (fun _ => false) "lib/_cache".toList
      ["lib/_cache".toList, "lib/_cache/abc_y.psd".toList] "http://x/y.psd".toList
      (by decide) (by decide) (by decide) (by decide)⟩

end Mockup

namespace Mockup

/-- C9, counterexample: a configuration consisting of a single folder
link does yield entries that trigger fetch attempts during cloud
loading — the three guidance strings are appended to the URL list and
each is handed to the downloader (which fails on them). -/
theorem folder_line_fetch_counterexample :
    (get_cloud_mockups (fun _ => "h".toList) (fun _ => false) "lib/_cache".toList
        (load_cloud_sources ["https://drive.google.com/drive/folders/ABC123".toList])
        []).2.2.length = 3 ∧
      (get_cloud_mockups (fun _ => "h".toList) (fun _ => false) "lib/_cache".toList
        (load_cloud_sources ["https://drive.google.com/drive/folders/ABC123".toList])
        []).2.2 ≠ [] := by
  exact ⟨by decide, by decide⟩

/-- C9, amended: a folder line is not expanded into fetchable asset
URLs and is not treated as an error (the remaining lines are still
processed); it is replaced by comment-marked user-facing guidance
entries — but those entries are appended to the URL list, so during
cloud loading each of them does trigger one fetch attempt, which fails
and therefore contributes no asset to the catalog. -/
theorem folder_line_guidance :
    (∀ (line : PyStr) (rest : List PyStr), isFolderLine (stripL line) = true →
      stripL line ≠ [] → startsWithL ['#'] (stripL line) = false →
      load_cloud_sources (line :: rest) =
        get_files_from_gdrive_folder (stripL line) ++ load_cloud_sources rest)
    ∧ (∀ url : PyStr,
      (∀ e ∈ get_files_from_gdrive_folder url, startsWithL ['#'] e = true) ∧
      (get_files_from_gdrive_folder url = [] ∨
        get_files_from_gdrive_folder url =
          ["# FOLDER: ".toList ++ url,
            "# Please replace this with individual file URLs".toList,
            "# Right-click each file > Share > Copy link".toList]))
    ∧ (∀ (md5 : PyStr → PyStr) (fetch : PyStr → Bool) (cacheDir : PyStr)
      (urls fs : List PyStr),
      (∀ u ∈ urls, fetch (get_google_drive_direct_link u) = false) →
      (∀ u ∈ urls, joinPath cacheDir (get_cached_filename md5 u) ∉ fs) →
      get_cloud_mockups md5 fetch cacheDir urls fs =
        ([], fs, urls.map get_google_drive_direct_link))
    ∧ load_cloud_sources ["https://drive.google.com/drive/folders/ABC123".toList] =
      ["# FOLDER: https://drive.google.com/drive/folders/ABC123".toList,
        "# Please replace this with individual file URLs".toList,
        "# Right-click each file > Share > Copy link".toList] := by
  refine ⟨?_, ?_, ?_, by decide⟩
  · intro line rest hfolder hne hhash
    rw [load_cloud_sources, if_neg hne, if_neg (by simp [hhash]), if_pos hfolder]
  · intro url
    simp only [get_files_from_gdrive_folder]
    split_ifs with h1 h2
    · exact ⟨fun e he => by simp at he, Or.inl rfl⟩
    · refine ⟨?_, Or.inr rfl⟩
      intro e he
      simp only [List.mem_cons] at he
      rcases he with rfl | rfl | rfl | h
      · rfl
      · rfl
      · rfl
      · simp at h
    · exact ⟨fun e he => by simp at he, Or.inl rfl⟩
  · intro md5 fetch cacheDir urls
    induction urls with
    | nil =>
      intro fs _ _
      rfl
    | cons u rest ih =>
      intro fs hfail hfresh
      have hens : ensureUrl md5 fetch cacheDir fs u =
          (none, fs, [get_google_drive_direct_link u]) := by
        simp only [ensureUrl, if_neg (hfresh u (by simp)), download_file,
          hfail u (by simp)]
        rfl
      simp only [get_cloud_mockups, hens]
      rw [ih fs (fun v hv => hfail v (by simp [hv])) (fun v hv => hfresh v (by simp [hv]))]
      rfl

/-- Witness for C9's amended theorem: the concrete folder-only
configuration, its guidance expansion, and the three failing fetch
attempts. -/
theorem folder_line_guidance_witness :
    load_cloud_sources ["https://drive.google.com/drive/folders/ABC123".toList, "https://x.com/m.psd".toList] =
        get_files_from_gdrive_folder
            (stripL "https://drive.google.com/drive/folders/ABC123".toList) ++
          load_cloud_sources ["https://x.com/m.psd".toList] ∧
      get_cloud_mockups (fun _ => "h".toList) (fun _ => false) "lib/_cache".toList
          (load_cloud_sources ["https://drive.google.com/drive/folders/ABC123".toList]) [] =
        ([], [],
          (load_cloud_sources
            ["https://drive.google.com/drive/folders/ABC123".toList]).map
              get_google_drive_direct_link) :=
  ⟨folder_line_guidance.1 "https://drive.google.com/drive/folders/ABC123".toList
      ["https://x.com/m.psd".toList] (by decide) (by decide) (by decide),
    folder_line_guidance.2.2.1 (fun _ => "h".toList) (fun _ => false) "lib/_cache".toList
      (load_cloud_sources ["https://drive.google.com/drive/folders/ABC123".toList]) []
      (by decide) (by decide)⟩

end Mockup
